import Mathlib

/-!
Verification of the spectral parameterization fitting pipeline and of the
plotting template helpers.

The fitting core is not present in the source tree (only its package
declarations, test configuration and plotting collaborators are), so the
fitting pipeline is modelled from the specification document: nonlinear
solvers and the transcendental functions (log10, sqrt, exp, pow) are taken
as oracle parameters, rational arithmetic stands for floating point, and
the bounded solves are reflected by clamping solver output into the
configured bounds, as the specification requires of them.

The plotting templates (plot_scatter_1, plot_hist, plot_params_over_time)
are embedded from `specparam/plts/templates.py`.
-/

namespace Fooof

/-- Modelled from the spec: the aperiodic mode, a tagged variant
`fixed | knee` (spec section 3, FitConfig.aperiodic_mode). -/
inductive ApMode where
  | fixed
  | knee
  deriving DecidableEq

/-- Modelled from the spec: AperiodicParams, a tagged variant over
`{fixed: (offset, exponent), knee: (offset, knee, exponent)}`
(spec section 3). -/
inductive AperiodicParams where
  | fixed (offset exponent : ℚ)
  | knee (offset knee exponent : ℚ)
  deriving DecidableEq

/-- Modelled from the spec: one periodic peak, a
`(center_frequency, amplitude, bandwidth)` triple (spec section 3,
PeakParams). -/
structure Peak where
  center : ℚ
  amp : ℚ
  bw : ℚ
  deriving DecidableEq

/-- Modelled from the spec: immutable fit configuration (spec section 3,
FitConfig), together with the configured minimum peak separation used by
the refiner and the preprocessor's minimum point count. -/
structure FitConfig where
  peak_width_limits : ℚ × ℚ
  max_n_peaks : ℕ
  min_peak_height : ℚ
  peak_threshold : ℚ
  aperiodic_mode : ApMode
  min_separation : ℚ
  min_points : ℕ
  deriving DecidableEq

/-- Modelled from the spec: the error taxonomy of section 7 (fatal errors
only; the non-fatal conditions are absorbed locally and never surface). -/
inductive FitError where
  | invalidRange
  | invalidPower
  | aperiodicFit
  deriving DecidableEq

/-- Modelled from the spec: FitResult (spec section 3) — aperiodic
parameters, final peaks, reconstructed model curve, residual at
convergence, and the scalar metrics. -/
structure FitResult where
  aperiodic : AperiodicParams
  peaks : List Peak
  modelCurve : List ℚ
  residual : List ℚ
  r_squared : ℚ
  fit_error : ℚ
  deriving DecidableEq

/-- Modelled from the spec: the numeric oracles the pipeline depends on.
`log10`, `sqrtQ`, `expQ`, `powQ` stand for the transcendental functions,
and the three `*Solve` fields stand for the nonlinear least-squares
solvers (aperiodic solve, single-Gaussian solve, joint multi-Gaussian
solve), which return `none` on non-convergence. -/
structure Oracles where
  log10 : ℚ → ℚ
  sqrtQ : ℚ → ℚ
  expQ : ℚ → ℚ
  powQ : ℚ → ℚ → ℚ
  apSolve : ApMode → ℚ × ℚ × ℚ → List (ℚ × ℚ) → Option (ℚ × ℚ × ℚ)
  peakSolve : ℚ × ℚ × ℚ → List (ℚ × ℚ) → Option (ℚ × ℚ × ℚ)
  jointSolve : List Peak → List (ℚ × ℚ) → Option (List Peak)

/-- Clamp a value into a closed interval, as a bounded least-squares solve
keeps each parameter inside its configured bounds. -/
def clampQ (lims : ℚ × ℚ) (x : ℚ) : ℚ :=
  max lims.1 (min lims.2 x)

/-- Mean of a list of rationals. -/
def mean (l : List ℚ) : ℚ :=
  l.sum / (l.length : ℚ)

/-- Population variance of a list of rationals. -/
def variance (l : List ℚ) : ℚ :=
  ((l.map (fun x => (x - mean l) ^ 2)).sum) / (l.length : ℚ)

/-- Modelled from the spec: trim a spectrum to the caller-specified
inclusive `[fmin, fmax]` range (spec section 4.1). -/
def trimSpectrum (fmin fmax : ℚ) (s : List (ℚ × ℚ)) : List (ℚ × ℚ) :=
  s.filter (fun p => decide (fmin ≤ p.1) && decide (p.1 ≤ fmax))

/-- Modelled from the spec: the Spectrum Preprocessor (spec section 4.1).
Trims to the requested range, fails with `InvalidRangeError` when fewer
than the minimum required points remain, then fails with
`InvalidPowerError` when any remaining power is non-positive, and
otherwise returns the `(trimmed_freqs, log_power)` pairs. -/
def preprocess (o : Oracles) (cfg : FitConfig) (fmin fmax : ℚ)
    (s : List (ℚ × ℚ)) : Except FitError (List (ℚ × ℚ)) :=
  let trimmed := trimSpectrum fmin fmax s
  if trimmed.length < cfg.min_points then .error .invalidRange
  else if trimmed.any (fun p => decide (p.2 ≤ 0)) then .error .invalidPower
  else .ok (trimmed.map (fun p => (p.1, o.log10 p.2)))

/-- Modelled from the spec: the aperiodic curve at one frequency (spec
section 4.2): `offset - exponent * log10(freq)` in fixed mode and
`offset - log10(knee + freq^exponent)` in knee mode. -/
def apCurve (o : Oracles) (ap : AperiodicParams) (f : ℚ) : ℚ :=
  match ap with
  | .fixed off ex => off - ex * o.log10 f
  | .knee off kn ex => off - o.log10 (kn + o.powQ f ex)

/-- Modelled from the spec: the initial guess for the aperiodic solve
(spec section 4.2a) — offset from the power at the lowest frequency,
exponent from the log-log slope between the first and last points. -/
def initialGuess (o : Oracles) (data : List (ℚ × ℚ)) : ℚ × ℚ × ℚ :=
  let first := data.headD (1, 0)
  let last := data.getLastD (1, 0)
  (first.2, 0, (first.2 - last.2) / (o.log10 last.1 - o.log10 first.1))

/-- Modelled from the spec: package a raw solver vector as
AperiodicParams, with the bounded solve's constraints
(`exponent ≥ 0`, `knee ≥ 0`) enforced by clamping (spec section 4.2b). -/
def clampAp (mode : ApMode) (p : ℚ × ℚ × ℚ) : AperiodicParams :=
  match mode with
  | .fixed => .fixed p.1 (max 0 p.2.2)
  | .knee => .knee p.1 (max 0 p.2.1) (max 0 p.2.2)

/-- Modelled from the spec: the Aperiodic Fitter (spec section 4.2).
Solve from the initial guess; on non-convergence retry once from the flat
fallback guess (exponent = 0); if that also fails, signal
`AperiodicFitError`. -/
def fitAperiodic (o : Oracles) (cfg : FitConfig) (data : List (ℚ × ℚ)) :
    Except FitError AperiodicParams :=
  let guess := initialGuess o data
  match o.apSolve cfg.aperiodic_mode guess data with
  | some p => .ok (clampAp cfg.aperiodic_mode p)
  | none =>
    match o.apSolve cfg.aperiodic_mode (guess.1, guess.2.1, 0) data with
    | some p => .ok (clampAp cfg.aperiodic_mode p)
    | none => .error .aperiodicFit

/-- Modelled from the spec: a Gaussian peak evaluated at one frequency
(glossary: a Gaussian in log-power vs frequency space). -/
def gauss (o : Oracles) (p : Peak) (f : ℚ) : ℚ :=
  p.amp * o.expQ (-((f - p.center) ^ 2) / (2 * p.bw ^ 2))

/-- Sum of all peak Gaussians at one frequency. -/
def peaksSum (o : Oracles) (peaks : List Peak) (f : ℚ) : ℚ :=
  (peaks.map (fun p => gauss o p f)).sum

/-- First index of the maximum flattened value, with its frequency and
value (first occurrence wins, as argmax does). -/
def findMax (l : List (ℚ × ℚ)) : Option (ℕ × ℚ × ℚ) :=
  l.enum.foldl
    (fun acc iv =>
      match acc with
      | none => some iv
      | some best => if best.2.2 < iv.2.2 then some iv else some best)
    none

/-- Modelled from the spec: subtract a fitted Gaussian from the
detector's private working copy of the flattened spectrum (spec
section 4.3, step 5). -/
def subtractGauss (o : Oracles) (p : Peak) (fs : List (ℚ × ℚ)) :
    List (ℚ × ℚ) :=
  fs.map (fun q => (q.1, q.2 - gauss o p q.1))

/-- Modelled from the spec: mask the frequency position of a candidate
whose single-peak fit failed, setting it to zero so it is not re-detected
(spec section 4.3, edge cases). -/
def maskAt (idx : ℕ) (fs : List (ℚ × ℚ)) : List (ℚ × ℚ) :=
  fs.enum.map (fun q => if q.1 = idx then (q.2.1, 0) else q.2)

/-- Modelled from the spec: the iterative peak search (spec section 4.3),
fuelled to bound the recursion. Each round stops when the maximum
flattened value is below `peak_threshold * std` or below
`min_peak_height`, or the candidate count has reached `max_n_peaks`;
otherwise it fits a single Gaussian (guess: that frequency, that value,
midpoint of the width limits; width bounded by `peak_width_limits`),
subtracts it and repeats, discarding and masking candidates whose fit
fails. -/
def detectLoop (o : Oracles) (cfg : FitConfig) :
    ℕ → List (ℚ × ℚ) → List Peak → List Peak
  | 0, _, acc => acc
  | Nat.succ fuel, fs, acc =>
    if cfg.max_n_peaks ≤ acc.length then acc
    else
      match findMax fs with
      | none => acc
      | some m =>
        let std := o.sqrtQ (variance (fs.map Prod.snd))
        if m.2.2 < cfg.peak_threshold * std ∨ m.2.2 < cfg.min_peak_height
        then acc
        else
          match o.peakSolve
              (m.2.1, m.2.2,
                (cfg.peak_width_limits.1 + cfg.peak_width_limits.2) / 2)
              fs with
          | some c =>
            let p : Peak := ⟨c.1, c.2.1, clampQ cfg.peak_width_limits c.2.2⟩
            detectLoop o cfg fuel (subtractGauss o p fs) (acc ++ [p])
          | none => detectLoop o cfg fuel (maskAt m.1 fs) acc

/-- Modelled from the spec: the Peak Detector (spec section 4.3), run on
the flattened spectrum with enough fuel for every detection and masking
step. -/
def detectPeaks (o : Oracles) (cfg : FitConfig) (fs : List (ℚ × ℚ)) :
    List Peak :=
  detectLoop o cfg (cfg.max_n_peaks + fs.length + 1) fs []

/-- Clamp a refined peak's bandwidth into the configured width limits, as
the bounded joint solve keeps it there. -/
def clampPeak (cfg : FitConfig) (p : Peak) : Peak :=
  ⟨p.center, p.amp, clampQ cfg.peak_width_limits p.bw⟩

/-- Ordering of peaks by center frequency. -/
def centerLE (p q : Peak) : Prop :=
  p.center ≤ q.center

instance : DecidableRel centerLE := fun p q =>
  inferInstanceAs (Decidable (p.center ≤ q.center))

instance : IsTotal Peak centerLE :=
  ⟨fun a b => le_total a.center b.center⟩

instance : IsTrans Peak centerLE :=
  ⟨fun _ _ _ hab hbc => le_trans hab hbc⟩

/-- Modelled from the spec: sort peaks by center frequency (spec
section 4.4). -/
def sortByCenter (l : List Peak) : List Peak :=
  l.insertionSort centerLE

/-- Modelled from the spec: walk a center-sorted peak list and drop the
lower-amplitude peak of any pair of neighbours whose centers are closer
than the minimum separation, until no violations remain (spec
section 4.4). `k` is the last peak kept so far. -/
def dropCloseGo (sep : ℚ) : Peak → List Peak → List Peak
  | k, [] => [k]
  | k, c :: rest =>
    if |c.center - k.center| < sep then
      if k.amp < c.amp then dropCloseGo sep c rest
      else dropCloseGo sep k rest
    else k :: dropCloseGo sep c rest

/-- Modelled from the spec: the merge/drop pass over a center-sorted peak
list (spec section 4.4). -/
def dropClose (sep : ℚ) : List Peak → List Peak
  | [] => []
  | p :: rest => dropCloseGo sep p rest

/-- Modelled from the spec: the joint multi-Gaussian re-optimization of
all candidates against the flattened spectrum (spec section 4.4), the
solution vector shaped by the candidate guess vector and its widths kept
inside the configured bounds; when the joint solve fails it degrades
gracefully to the unrefined candidates. -/
def refinedCands (o : Oracles) (cfg : FitConfig) (cands : List Peak)
    (flat : List (ℚ × ℚ)) : List Peak :=
  match o.jointSolve cands flat with
  | some out => (out.zip cands).map (fun (pc : Peak × Peak) => clampPeak cfg pc.1)
  | none => cands

/-- Modelled from the spec: the Peak Refiner (spec section 4.4). Jointly
re-optimize the candidates against the flattened spectrum, drop peaks
whose amplitude is below `min_peak_height`, sort by center and apply the
minimum-separation merge/drop pass. -/
def refinePeaks (o : Oracles) (cfg : FitConfig) (cands : List Peak)
    (flat : List (ℚ × ℚ)) : List Peak :=
  dropClose cfg.min_separation
    (sortByCenter
      ((refinedCands o cfg cands flat).filter
        (fun p => decide (cfg.min_peak_height ≤ p.amp))))

/-- Modelled from the spec: subtract the current aperiodic fit from the
log power, producing the flattened spectrum (spec section 4.6, Flatten). -/
def flattenData (o : Oracles) (ap : AperiodicParams) (data : List (ℚ × ℚ)) :
    List (ℚ × ℚ) :=
  data.map (fun p => (p.1, p.2 - apCurve o ap p.1))

/-- Modelled from the spec: subtract the refined peak sum from the
original log power before the second aperiodic pass (spec section 4.6,
PeakRefine → AperiodicFit2). -/
def removePeaks (o : Oracles) (peaks : List Peak) (data : List (ℚ × ℚ)) :
    List (ℚ × ℚ) :=
  data.map (fun p => (p.1, p.2 - peaksSum o peaks p.1))

/-- Modelled from the spec: the full peak stage — detect candidates on
the flattened spectrum, then refine them against it (spec sections 4.3
and 4.4). -/
def fitPeaks (o : Oracles) (cfg : FitConfig) (ap : AperiodicParams)
    (data : List (ℚ × ℚ)) : List Peak :=
  refinePeaks o cfg (detectPeaks o cfg (flattenData o ap data))
    (flattenData o ap data)

/-- Modelled from the spec: `r_squared = 1 - SS_res / SS_tot` between the
model curve and the original log power (spec section 4.5). -/
def rsq (model orig : List ℚ) : ℚ :=
  1 - (List.zipWith (fun a b => (a - b) ^ 2) orig model).sum
        / ((orig.map (fun a => (a - mean orig) ^ 2)).sum)

/-- Modelled from the spec: `fit_error`, the mean absolute residual (spec
section 4.5; the documented consistent choice here is mean absolute). -/
def meanAbsError (model orig : List ℚ) : ℚ :=
  (List.zipWith (fun a b => |a - b|) orig model).sum / (orig.length : ℚ)

/-- Modelled from the spec: the Model Assembler and Scorer (spec
section 4.5) — reconstruct the full curve (aperiodic plus Gaussian sum),
the residual, and the goodness-of-fit metrics, packaged once as the
FitResult. -/
def assemble (o : Oracles) (data : List (ℚ × ℚ)) (ap : AperiodicParams)
    (peaks : List Peak) : FitResult :=
  let curve := data.map (fun p => apCurve o ap p.1 + peaksSum o peaks p.1)
  let orig := data.map Prod.snd
  { aperiodic := ap
    peaks := peaks
    modelCurve := curve
    residual := List.zipWith (fun a b => a - b) orig curve
    r_squared := rsq curve orig
    fit_error := meanAbsError curve orig }

/-- Modelled from the spec: the Orchestrator (spec section 4.6) —
preprocess, first aperiodic fit, flatten, peak search and refinement,
second aperiodic fit on the peak-removed spectrum, then assemble; any
fatal error aborts the whole fit with a typed failure. -/
def fit (o : Oracles) (cfg : FitConfig) (fmin fmax : ℚ)
    (s : List (ℚ × ℚ)) : Except FitError FitResult :=
  match preprocess o cfg fmin fmax s with
  | .error e => .error e
  | .ok data =>
    match fitAperiodic o cfg data with
    | .error e => .error e
    | .ok ap1 =>
      match fitAperiodic o cfg
          (removePeaks o (fitPeaks o cfg ap1 data) data) with
      | .error e => .error e
      | .ok ap2 => .ok (assemble o data ap2 (fitPeaks o cfg ap1 data))

/-- Modelled from the spec: the data-model invariant on aperiodic
parameters (spec section 3) — exponent nonnegative, knee nonnegative
when the knee mode is active. -/
def apInvariant : AperiodicParams → Prop
  | .fixed _ ex => 0 ≤ ex
  | .knee _ kn ex => 0 ≤ ex ∧ 0 ≤ kn

/-- Concrete oracles for exercising a successful pipeline run: identity
transcendentals, an indicator exponential, and solvers that return their
initial guess. -/
def oW : Oracles :=
  { log10 := fun x => x
    sqrtQ := fun x => x
    expQ := fun x => if x = 0 then 1 else 0
    powQ := fun x _ => x
    apSolve := fun _ _ _ => some (0, 0, 0)
    peakSolve := fun g _ => some g
    jointSolve := fun cands _ => some cands }

/-- Concrete oracles whose nonlinear solvers never converge. -/
def oFail : Oracles :=
  { log10 := fun x => x
    sqrtQ := fun x => x
    expQ := fun _ => 0
    powQ := fun x _ => x
    apSolve := fun _ _ _ => none
    peakSolve := fun _ _ => none
    jointSolve := fun _ _ => none }

/-- A concrete configuration: width limits `[1, 8]`, at most two peaks,
minimum peak height `1/10`, threshold `2`, fixed mode, minimum
separation `1`, at least three points. -/
def cfgW : FitConfig :=
  { peak_width_limits := (1, 8)
    max_n_peaks := 2
    min_peak_height := 1 / 10
    peak_threshold := 2
    aperiodic_mode := .fixed
    min_separation := 1
    min_points := 3 }

/-- A concrete four-point spectrum in which the detector keeps finding
maxima — a stand-in for a four-peak spectrum. -/
def sW : List (ℚ × ℚ) := [(1, 1), (2, 1), (3, 1), (4, 1)]

/-- The FitResult `fit oW cfgW 0 10 sW` produces. -/
def resW : FitResult :=
  { aperiodic := .fixed 0 0
    peaks := [⟨1, 1, 9 / 2⟩, ⟨2, 1, 9 / 2⟩]
    modelCurve := [1, 1, 0, 0]
    residual := [0, 0, 1, 1]
    r_squared := 1
    fit_error := 1 / 2 }

/-- A concrete spectrum whose trimmed range keeps enough points but
contains a non-positive power. -/
def sPow : List (ℚ × ℚ) := [(1, 1), (2, 1), (3, 0)]

/-- A concrete spectrum whose trimmed range both has too few points and
contains a non-positive power. -/
def sShort : List (ℚ × ℚ) := [(1, 1), (2, 0)]

/-! ### Plot templates, embedded from `specparam/plts/templates.py`

Data arrays are lists of `Option ℚ`: `none` stands for NaN. Each template
function is a pure function from its data arrays and presentation options
to a record of the drawing commands it issues; the `dataAfter` field
records the contents of the caller's data array when the function
returns. The jitter drawn from `np.random.normal` in `plot_scatter_1` is
an explicit input. -/

/-- A possibly-NaN value: `none` stands for NaN. -/
abbrev NVal := Option ℚ

/-- Embeds `np.isnan(data)`. -/
def npIsnan (l : List NVal) : List Bool :=
  l.map Option.isNone

/-- Embeds boolean-mask indexing `data[mask]`: keep the entries whose
mask position is true. -/
def boolIndex (l : List NVal) (mask : List Bool) : List NVal :=
  (l.zip mask).filterMap (fun p => if p.2 then some p.1 else none)

/-- The drawing commands issued by `plot_scatter_1`: one scatter of
`(x_data, data)`, the axis labels and limits, and the caller's data array
on return. -/
structure ScatterPlot where
  xdata : List NVal
  ydata : List NVal
  ylabel : Option String
  title : Option String
  xlims : ℚ × ℚ
  dataAfter : List NVal
  deriving DecidableEq

/-- Embeds `plot_scatter_1` from `specparam/plts/templates.py`: build a
fresh jittered x array `np.ones_like(data) * x_val + jitter` (the normal
draw `jitter` has the shape of `data`), scatter it against `data`, set
labels and the x limits `[-0.5, 0.5]`. The input array is only read. -/
def plot_scatter_1 (data : List NVal) (label : Option String)
    (title : Option String) (x_val : ℚ) (jitter : List NVal) : ScatterPlot :=
  let x_data :=
    List.zipWith (fun _ j => Option.map (fun jv => 1 * x_val + jv) j)
      data jitter
  { xdata := x_data
    ydata := data
    ylabel := label
    title := title
    xlims := (-(1 / 2), 1 / 2)
    dataAfter := data }

/-- The bin index `np.histogram` assigns to an in-range value: uniform
bins over `[lo, hi]`, last bin closed on the right. -/
def binIdx (lo hi : ℚ) (n : ℕ) (v : ℚ) : ℕ :=
  min (Int.toNat ⌊(v - lo) * (n : ℚ) / (hi - lo)⌋) (n - 1)

/-- The histogram range `np.histogram` uses: the explicit `range`
argument when given, otherwise the data's min and max (and `(0, 1)` for
empty data). -/
def histRange (vals : List ℚ) (lims : Option (ℚ × ℚ)) : ℚ × ℚ :=
  match lims with
  | some lh => lh
  | none =>
    match vals with
    | [] => (0, 1)
    | v :: rest => (rest.foldl min v, rest.foldl max v)

/-- `np.histogram` widens a degenerate range by half a unit on each
side. -/
def adjustRange (r : ℚ × ℚ) : ℚ × ℚ :=
  if r.1 = r.2 then (r.1 - 1 / 2, r.2 + 1 / 2) else r

/-- The bin counts of `np.histogram`: values outside `[lo, hi]` are
ignored, each in-range value lands in its bin. -/
def histCounts (vals : List ℚ) (n : ℕ) (lo hi : ℚ) : List ℕ :=
  (List.range n).map
    (fun i =>
      (vals.filter (fun v => decide (lo ≤ v) && decide (v ≤ hi))).countP
        (fun v => decide (binIdx lo hi n v = i)))

/-- The drawing commands issued by `plot_hist`: the values handed to
`ax.hist`, the resulting bin counts, the labels, and the caller's data
array on return. -/
structure HistPlot where
  values : List ℚ
  counts : List ℕ
  xlabel : String
  ylabel : String
  title : Option String
  dataAfter : List NVal
  deriving DecidableEq

/-- Embeds `plot_hist` from `specparam/plts/templates.py`: histogram
`data[~np.isnan(data)]` into `n_bins` bins over the optional `x_lims`
range, label the axes. The input array is only read. -/
def plot_hist (data : List NVal) (label : String) (title : Option String)
    (n_bins : ℕ) (x_lims : Option (ℚ × ℚ)) : HistPlot :=
  let vals := (boolIndex data ((npIsnan data).map not)).filterMap id
  let r := adjustRange (histRange vals x_lims)
  { values := vals
    counts := histCounts vals n_bins r.1 r.2
    xlabel := label
    ylabel := "Count"
    title := title
    dataAfter := data }

/-- The axis structure `plot_params_over_time` creates: which axes exist
(`true` marks the base axis, `false` a twinned one), the right-spine
positions it sets (axis index, position), and which series is drawn on
which axis. -/
structure TimePlot where
  axisIsBase : List Bool
  spinePositions : List (ℕ × ℚ)
  draws : List (ℕ × List ℚ)
  deriving DecidableEq

/-- Embeds `plot_params_over_time` from `specparam/plts/templates.py`
at default labels and colors: `axes = [ax0] + [ax0.twinx() for _ in
range(n_axes - 1)]` with `n_axes = len(params)`; when `n_axes >= 3`,
`for nax, ind in enumerate(range(2, n_axes))` the right spine of
`axes[ind]` is set to `("axes", 1.1 + 0.1 * nax)`; then each series is
drawn on the axis `zip(axes, params)` pairs it with. -/
def plot_params_over_time (params : List (List ℚ)) : TimePlot :=
  let n := params.length
  let axes := List.range (1 + (n - 1))
  { axisIsBase := axes.map (fun i => decide (i = 0))
    spinePositions :=
      if 3 ≤ n then
        ((List.range n).drop 2).enum.map
          (fun q => (q.2, 11 / 10 + (q.1 : ℚ) / 10))
      else []
    draws := axes.zip params }

/-! ### Helper lemmas -/

theorem preprocess_error_of_nonpositive (o : Oracles) (cfg : FitConfig)
    (fmin fmax : ℚ) (s : List (ℚ × ℚ))
    (hlen : cfg.min_points ≤ (trimSpectrum fmin fmax s).length)
    (hbad : ∃ p ∈ trimSpectrum fmin fmax s, p.2 ≤ 0) :
    preprocess o cfg fmin fmax s = .error .invalidPower := by
  obtain ⟨p, hp, hple⟩ := hbad
  have hany : (trimSpectrum fmin fmax s).any (fun p => decide (p.2 ≤ 0)) = true :=
    List.any_eq_true.2 ⟨p, hp, decide_eq_true hple⟩
  simp only [preprocess]
  rw [if_neg (not_lt.2 hlen), if_pos hany]

theorem fit_ok_elim {o : Oracles} {cfg : FitConfig} {fmin fmax : ℚ}
    {s : List (ℚ × ℚ)} {res : FitResult}
    (h : fit o cfg fmin fmax s = .ok res) :
    ∃ data ap1 ap2,
      preprocess o cfg fmin fmax s = .ok data ∧
      fitAperiodic o cfg data = .ok ap1 ∧
      fitAperiodic o cfg (removePeaks o (fitPeaks o cfg ap1 data) data) = .ok ap2 ∧
      res = assemble o data ap2 (fitPeaks o cfg ap1 data) := by
  unfold fit at h
  cases hpre : preprocess o cfg fmin fmax s with
  | error e => simp only [hpre] at h; exact Except.noConfusion h
  | ok data =>
    simp only [hpre] at h
    cases hap1 : fitAperiodic o cfg data with
    | error e => simp only [hap1] at h; exact Except.noConfusion h
    | ok ap1 =>
      simp only [hap1] at h
      cases hap2 : fitAperiodic o cfg
          (removePeaks o (fitPeaks o cfg ap1 data) data) with
      | error e => simp only [hap2] at h; exact Except.noConfusion h
      | ok ap2 =>
        simp only [hap2, Except.ok.injEq] at h
        exact ⟨data, ap1, ap2, rfl, hap1, hap2, h.symm⟩

theorem dropCloseGo_spec (sep : ℚ) (l : List Peak) :
    ∀ k : Peak, l.Pairwise centerLE → (∀ x ∈ l, k.center ≤ x.center) →
      (dropCloseGo sep k l).Pairwise (fun p q => p.center + sep ≤ q.center) ∧
      ∀ y ∈ dropCloseGo sep k l, k.center ≤ y.center := by
  induction l with
  | nil =>
    intro k _ _
    refine ⟨List.pairwise_singleton _ _, ?_⟩
    intro y hy
    rw [show dropCloseGo sep k [] = [k] from rfl, List.mem_singleton] at hy
    exact hy ▸ le_refl _
  | cons c rest ih =>
    intro k hsort hk
    rw [List.pairwise_cons] at hsort
    obtain ⟨hc_rest, hrest⟩ := hsort
    have hkc : k.center ≤ c.center := hk c (List.mem_cons_self c rest)
    by_cases hclose : |c.center - k.center| < sep
    · by_cases hamp : k.amp < c.amp
      · have hres := ih c hrest hc_rest
        simp only [dropCloseGo, if_pos hclose, if_pos hamp]
        exact ⟨hres.1, fun y hy => le_trans hkc (hres.2 y hy)⟩
      · have hres := ih k hrest
          (fun x hx => hk x (List.mem_cons_of_mem c hx))
        simp only [dropCloseGo, if_pos hclose, if_neg hamp]
        exact hres
    · have hfar : sep ≤ c.center - k.center := by
        have h1 : sep ≤ |c.center - k.center| := not_lt.1 hclose
        have h2 : |c.center - k.center| = c.center - k.center :=
          abs_of_nonneg (by linarith)
        linarith
      have hres := ih c hrest hc_rest
      simp only [dropCloseGo, if_neg hclose]
      constructor
      · rw [List.pairwise_cons]
        refine ⟨fun y hy => ?_, hres.1⟩
        have := hres.2 y hy
        linarith
      · intro y hy
        rcases List.mem_cons.1 hy with rfl | hy2
        · exact le_refl _
        · exact le_trans hkc (hres.2 y hy2)

theorem dropCloseGo_subset (sep : ℚ) (l : List Peak) :
    ∀ k y, y ∈ dropCloseGo sep k l → y = k ∨ y ∈ l := by
  induction l with
  | nil =>
    intro k y hy
    rw [show dropCloseGo sep k [] = [k] from rfl, List.mem_singleton] at hy
    exact Or.inl hy
  | cons c rest ih =>
    intro k y hy
    simp only [dropCloseGo] at hy
    by_cases hclose : |c.center - k.center| < sep
    · rw [if_pos hclose] at hy
      by_cases hamp : k.amp < c.amp
      · rw [if_pos hamp] at hy
        rcases ih c y hy with rfl | h
        · exact Or.inr (List.mem_cons_self _ _)
        · exact Or.inr (List.mem_cons_of_mem _ h)
      · rw [if_neg hamp] at hy
        rcases ih k y hy with rfl | h
        · exact Or.inl rfl
        · exact Or.inr (List.mem_cons_of_mem _ h)
    · rw [if_neg hclose] at hy
      rcases List.mem_cons.1 hy with rfl | hy2
      · exact Or.inl rfl
      · rcases ih c y hy2 with rfl | h
        · exact Or.inr (List.mem_cons_self _ _)
        · exact Or.inr (List.mem_cons_of_mem _ h)

theorem dropCloseGo_length (sep : ℚ) (l : List Peak) :
    ∀ k, (dropCloseGo sep k l).length ≤ l.length + 1 := by
  induction l with
  | nil => intro k; rw [show dropCloseGo sep k [] = [k] from rfl]; simp
  | cons c rest ih =>
    intro k
    simp only [dropCloseGo, List.length_cons]
    split_ifs with h1 h2
    · exact le_trans (ih c) (by omega)
    · exact le_trans (ih k) (by omega)
    · simp only [List.length_cons]
      exact Nat.succ_le_succ (ih c)

theorem dropClose_pairwise (sep : ℚ) (l : List Peak)
    (hl : l.Pairwise centerLE) :
    (dropClose sep l).Pairwise (fun p q => sep ≤ |p.center - q.center|) := by
  cases l with
  | nil => exact List.Pairwise.nil
  | cons p rest =>
    rw [List.pairwise_cons] at hl
    have h := dropCloseGo_spec sep rest p hl.2 hl.1
    refine h.1.imp ?_
    intro a b hab
    have h1 : sep ≤ b.center - a.center := by linarith
    calc sep ≤ b.center - a.center := h1
      _ ≤ |b.center - a.center| := le_abs_self _
      _ = |a.center - b.center| := abs_sub_comm _ _

theorem dropClose_subset (sep : ℚ) (l : List Peak) :
    ∀ y ∈ dropClose sep l, y ∈ l := by
  cases l with
  | nil => intro y hy; exact absurd hy (List.not_mem_nil y)
  | cons p rest =>
    intro y hy
    rcases dropCloseGo_subset sep rest p y hy with rfl | h
    · exact List.mem_cons_self _ _
    · exact List.mem_cons_of_mem _ h

theorem dropClose_length (sep : ℚ) (l : List Peak) :
    (dropClose sep l).length ≤ l.length := by
  cases l with
  | nil => exact le_refl 0
  | cons p rest =>
    simpa [dropClose] using dropCloseGo_length sep rest p

theorem sortByCenter_sorted (l : List Peak) :
    (sortByCenter l).Pairwise centerLE :=
  List.sorted_insertionSort centerLE l

theorem refinePeaks_pairwise (o : Oracles) (cfg : FitConfig)
    (cands : List Peak) (flat : List (ℚ × ℚ)) :
    (refinePeaks o cfg cands flat).Pairwise
      (fun p q => cfg.min_separation ≤ |p.center - q.center|) :=
  dropClose_pairwise cfg.min_separation _ (sortByCenter_sorted _)

theorem detectLoop_bw (o : Oracles) (cfg : FitConfig) :
    ∀ (fuel : ℕ) (fs : List (ℚ × ℚ)) (acc : List Peak),
      (∀ p ∈ acc, ∃ x, p.bw = clampQ cfg.peak_width_limits x) →
      ∀ p ∈ detectLoop o cfg fuel fs acc,
        ∃ x, p.bw = clampQ cfg.peak_width_limits x := by
  intro fuel
  induction fuel with
  | zero => intro fs acc hacc p hp; exact hacc p hp
  | succ n ih =>
    intro fs acc hacc p hp
    simp only [detectLoop] at hp
    split at hp
    · exact hacc p hp
    · split at hp
      · exact hacc p hp
      · split at hp
        · exact hacc p hp
        · split at hp
          · refine ih _ _ ?_ p hp
            intro q hq
            rcases List.mem_append.1 hq with h | h
            · exact hacc q h
            · rw [List.mem_singleton] at h
              exact ⟨_, by rw [h]⟩
          · exact ih _ _ hacc p hp

theorem detectPeaks_bw (o : Oracles) (cfg : FitConfig) (fs : List (ℚ × ℚ)) :
    ∀ p ∈ detectPeaks o cfg fs, ∃ x, p.bw = clampQ cfg.peak_width_limits x :=
  detectLoop_bw o cfg _ fs [] (by intro p hp; exact absurd hp (List.not_mem_nil p))

theorem detectLoop_length (o : Oracles) (cfg : FitConfig) :
    ∀ (fuel : ℕ) (fs : List (ℚ × ℚ)) (acc : List Peak),
      (detectLoop o cfg fuel fs acc).length ≤ max acc.length cfg.max_n_peaks := by
  intro fuel
  induction fuel with
  | zero => intro fs acc; exact Nat.le_max_left _ _
  | succ n ih =>
    intro fs acc
    simp only [detectLoop]
    split
    · exact Nat.le_max_left _ _
    · rename_i h1
      split
      · exact Nat.le_max_left _ _
      · split
        · exact Nat.le_max_left _ _
        · split
          · calc (detectLoop o cfg n _ _).length
                ≤ max (acc ++ [_]).length cfg.max_n_peaks := ih _ _
              _ = max (acc.length + 1) cfg.max_n_peaks := by
                  simp
              _ = cfg.max_n_peaks := Nat.max_eq_right (by omega)
              _ ≤ max acc.length cfg.max_n_peaks := Nat.le_max_right _ _
          · exact ih _ _

theorem detectPeaks_length (o : Oracles) (cfg : FitConfig)
    (fs : List (ℚ × ℚ)) : (detectPeaks o cfg fs).length ≤ cfg.max_n_peaks := by
  have h := detectLoop_length o cfg (cfg.max_n_peaks + fs.length + 1) fs []
  simpa using h

theorem refinedCands_length (o : Oracles) (cfg : FitConfig)
    (cands : List Peak) (flat : List (ℚ × ℚ)) :
    (refinedCands o cfg cands flat).length ≤ cands.length := by
  unfold refinedCands
  cases hj : o.jointSolve cands flat with
  | none => exact le_refl _
  | some out =>
    simp only [List.length_map, List.length_zip]
    exact min_le_right _ _

theorem refinedCands_mem (o : Oracles) (cfg : FitConfig) (cands : List Peak)
    (flat : List (ℚ × ℚ)) (p : Peak)
    (hp : p ∈ refinedCands o cfg cands flat) :
    p ∈ cands ∨ ∃ x, p.bw = clampQ cfg.peak_width_limits x := by
  unfold refinedCands at hp
  cases hj : o.jointSolve cands flat with
  | none => rw [hj] at hp; exact Or.inl hp
  | some out =>
    rw [hj] at hp
    rw [List.mem_map] at hp
    obtain ⟨pc, _, hpc⟩ := hp
    exact Or.inr ⟨pc.1.bw, by rw [← hpc]; rfl⟩

theorem refinePeaks_mem (o : Oracles) (cfg : FitConfig) (cands : List Peak)
    (flat : List (ℚ × ℚ)) (p : Peak)
    (hp : p ∈ refinePeaks o cfg cands flat) :
    cfg.min_peak_height ≤ p.amp ∧
    (p ∈ cands ∨ ∃ x, p.bw = clampQ cfg.peak_width_limits x) := by
  unfold refinePeaks at hp
  have h1 := dropClose_subset _ _ p hp
  rw [sortByCenter, List.mem_insertionSort, List.mem_filter] at h1
  refine ⟨by simpa using h1.2, refinedCands_mem o cfg cands flat p h1.1⟩

theorem refinePeaks_length (o : Oracles) (cfg : FitConfig)
    (cands : List Peak) (flat : List (ℚ × ℚ)) :
    (refinePeaks o cfg cands flat).length ≤ cands.length := by
  unfold refinePeaks
  calc (dropClose cfg.min_separation _).length
      ≤ (sortByCenter ((refinedCands o cfg cands flat).filter _)).length :=
        dropClose_length _ _
    _ = ((refinedCands o cfg cands flat).filter _).length := by
        rw [sortByCenter, List.length_insertionSort]
    _ ≤ (refinedCands o cfg cands flat).length := List.length_filter_le _ _
    _ ≤ cands.length := refinedCands_length o cfg cands flat

theorem clampAp_invariant (mode : ApMode) (p : ℚ × ℚ × ℚ) :
    apInvariant (clampAp mode p) := by
  cases mode with
  | fixed => exact le_max_left 0 _
  | knee => exact ⟨le_max_left 0 _, le_max_left 0 _⟩

theorem fitAperiodic_invariant {o : Oracles} {cfg : FitConfig}
    {data : List (ℚ × ℚ)} {ap : AperiodicParams}
    (h : fitAperiodic o cfg data = .ok ap) : apInvariant ap := by
  unfold fitAperiodic at h
  cases h1 : o.apSolve cfg.aperiodic_mode (initialGuess o data) data with
  | some p =>
    simp only [h1, Except.ok.injEq] at h
    rw [← h]
    exact clampAp_invariant _ _
  | none =>
    simp only [h1] at h
    cases h2 : o.apSolve cfg.aperiodic_mode
        ((initialGuess o data).1, (initialGuess o data).2.1, 0) data with
    | some p =>
      simp only [h2, Except.ok.injEq] at h
      rw [← h]
      exact clampAp_invariant _ _
    | none => simp only [h2] at h; exact Except.noConfusion h

theorem clampQ_bounds (lims : ℚ × ℚ) (x : ℚ) (h : lims.1 ≤ lims.2) :
    lims.1 ≤ clampQ lims x ∧ clampQ lims x ≤ lims.2 :=
  ⟨le_max_left _ _, max_le h (min_le_left _ _)⟩

theorem fit_oW_eval : fit oW cfgW 0 10 sW = .ok resW := by
  norm_num [fit, preprocess, trimSpectrum, fitAperiodic, initialGuess,
    clampAp, flattenData, removePeaks, fitPeaks, detectPeaks, detectLoop,
    findMax, variance, mean, subtractGauss, maskAt, gauss, peaksSum,
    refinePeaks, refinedCands, apCurve, dropClose, dropCloseGo,
    sortByCenter, clampPeak, clampQ, assemble, rsq, meanAbsError, centerLE,
    List.insertionSort, List.orderedInsert, oW, cfgW, sW, resW, List.enum,
    List.enumFrom]

/-! ### C1 -/

/-- C1 counterexample: on a spectrum whose trimmed range contains a
non-positive power but fewer than the minimum required points, `fit`
returns `InvalidRangeError`, not `InvalidPowerError` — the range check
fires first. -/
theorem fit_invalidPower_counterexample :
    (∃ p ∈ trimSpectrum 0 10 sShort, p.2 ≤ 0) ∧
    fit oW cfgW 0 10 sShort = .error .invalidRange ∧
    FitError.invalidRange ≠ FitError.invalidPower := by
  refine ⟨⟨(2, 0), ?_, le_refl 0⟩, ?_, by decide⟩
  · norm_num [trimSpectrum, sShort]
  · norm_num [fit, preprocess, trimSpectrum, sShort, cfgW]

/-- C1 (amended): when some power value in the trimmed range is
non-positive and the trimmed range still contains at least the minimum
required number of points (so the range check passes), the preprocessor
signals `InvalidPowerError`, the fit never starts, and no FitResult is
produced. -/
theorem fit_invalidPower_of_trimmed_nonpositive (o : Oracles)
    (cfg : FitConfig) (fmin fmax : ℚ) (s : List (ℚ × ℚ))
    (hlen : cfg.min_points ≤ (trimSpectrum fmin fmax s).length)
    (hbad : ∃ p ∈ trimSpectrum fmin fmax s, p.2 ≤ 0) :
    fit o cfg fmin fmax s = .error .invalidPower := by
  unfold fit
  rw [preprocess_error_of_nonpositive o cfg fmin fmax s hlen hbad]

/-- C1 witness: a concrete spectrum with three trimmed points, one of
them with power zero, on which `fit` returns `InvalidPowerError`. -/
theorem fit_invalidPower_of_trimmed_nonpositive_witness :
    cfgW.min_points ≤ (trimSpectrum 0 10 sPow).length ∧
    (∃ p ∈ trimSpectrum 0 10 sPow, p.2 ≤ 0) ∧
    fit oW cfgW 0 10 sPow = .error .invalidPower := by
  have h1 : cfgW.min_points ≤ (trimSpectrum 0 10 sPow).length := by
    norm_num [trimSpectrum, sPow, cfgW]
  have h2 : ∃ p ∈ trimSpectrum 0 10 sPow, p.2 ≤ 0 := by
    refine ⟨(3, 0), ?_, le_refl 0⟩
    norm_num [trimSpectrum, sPow]
  exact ⟨h1, h2, fit_invalidPower_of_trimmed_nonpositive oW cfgW 0 10 sPow h1 h2⟩

/-! ### C2 -/

/-- C2: in every successful FitResult, every pair of distinct peaks has
centers at least the configured minimum separation apart — the
post-refinement merge/drop pass keeps only peaks that respect it. -/
theorem fit_peak_min_separation {o : Oracles} {cfg : FitConfig}
    {fmin fmax : ℚ} {s : List (ℚ × ℚ)} {res : FitResult}
    (h : fit o cfg fmin fmax s = .ok res) :
    res.peaks.Pairwise
      (fun p q => cfg.min_separation ≤ |p.center - q.center|) := by
  obtain ⟨data, ap1, ap2, _, _, _, hres⟩ := fit_ok_elim h
  rw [hres]
  show (fitPeaks o cfg ap1 data).Pairwise _
  exact refinePeaks_pairwise o cfg _ _

/-- C2 witness: the concrete run produces two peaks with centers 1 and 2,
one minimum separation apart. -/
theorem fit_peak_min_separation_witness :
    fit oW cfgW 0 10 sW = .ok resW ∧
    resW.peaks.Pairwise
      (fun p q => cfgW.min_separation ≤ |p.center - q.center|) :=
  ⟨fit_oW_eval, fit_peak_min_separation fit_oW_eval⟩

/-! ### C3 -/

/-- C3: in every successful FitResult (under a well-formed configuration:
positive minimum peak height and ordered width limits), every peak's
bandwidth lies within the configured width limits, every peak's amplitude
is positive, and the aperiodic exponent — and the knee when the knee mode
is active — is nonnegative. -/
theorem fit_parameter_bounds {o : Oracles} {cfg : FitConfig}
    {fmin fmax : ℚ} {s : List (ℚ × ℚ)} {res : FitResult}
    (h : fit o cfg fmin fmax s = .ok res)
    (hmph : 0 < cfg.min_peak_height)
    (hlims : cfg.peak_width_limits.1 ≤ cfg.peak_width_limits.2) :
    (∀ p ∈ res.peaks,
      cfg.peak_width_limits.1 ≤ p.bw ∧ p.bw ≤ cfg.peak_width_limits.2 ∧
      0 < p.amp) ∧
    apInvariant res.aperiodic := by
  obtain ⟨data, ap1, ap2, _, _, hap2, hres⟩ := fit_ok_elim h
  rw [hres]
  constructor
  · show ∀ p ∈ fitPeaks o cfg ap1 data, _
    intro p hp
    unfold fitPeaks at hp
    have hmem := refinePeaks_mem o cfg _ _ p hp
    have hbw : ∃ x, p.bw = clampQ cfg.peak_width_limits x := by
      rcases hmem.2 with hc | hb
      · exact detectPeaks_bw o cfg _ p hc
      · exact hb
    obtain ⟨x, hx⟩ := hbw
    have hb := clampQ_bounds cfg.peak_width_limits x hlims
    exact ⟨hx ▸ hb.1, hx ▸ hb.2, lt_of_lt_of_le hmph hmem.1⟩
  · show apInvariant ap2
    exact fitAperiodic_invariant hap2

/-- C3 witness: in the concrete run both peaks have bandwidth 9/2 within
[1, 8] and amplitude 1 > 0, and the fitted exponent 0 is nonnegative. -/
theorem fit_parameter_bounds_witness :
    (0 < cfgW.min_peak_height ∧
      cfgW.peak_width_limits.1 ≤ cfgW.peak_width_limits.2) ∧
    ((∀ p ∈ resW.peaks,
        cfgW.peak_width_limits.1 ≤ p.bw ∧ p.bw ≤ cfgW.peak_width_limits.2 ∧
        0 < p.amp) ∧
      apInvariant resW.aperiodic) := by
  have h1 : (0 : ℚ) < cfgW.min_peak_height := by norm_num [cfgW]
  have h2 : cfgW.peak_width_limits.1 ≤ cfgW.peak_width_limits.2 := by
    norm_num [cfgW]
  exact ⟨⟨h1, h2⟩, fit_parameter_bounds fit_oW_eval h1 h2⟩

/-! ### C4 -/

/-- C4: the peak detector stops adding candidates once the candidate
count reaches `max_n_peaks`, and refinement only removes peaks, so every
successful FitResult contains at most `max_n_peaks` peaks. -/
theorem fit_max_peaks_cap {o : Oracles} {cfg : FitConfig} {fmin fmax : ℚ}
    {s : List (ℚ × ℚ)} {res : FitResult}
    (h : fit o cfg fmin fmax s = .ok res) :
    res.peaks.length ≤ cfg.max_n_peaks := by
  obtain ⟨data, ap1, ap2, _, _, _, hres⟩ := fit_ok_elim h
  rw [hres]
  show (fitPeaks o cfg ap1 data).length ≤ cfg.max_n_peaks
  unfold fitPeaks
  exact le_trans (refinePeaks_length o cfg _ _) (detectPeaks_length o cfg _)

/-- C4 witness: with `max_n_peaks = 2` on the four-maxima spectrum, the
result has exactly two peaks, within the cap. -/
theorem fit_max_peaks_cap_witness :
    fit oW cfgW 0 10 sW = .ok resW ∧ resW.peaks.length ≤ cfgW.max_n_peaks :=
  ⟨fit_oW_eval, fit_max_peaks_cap fit_oW_eval⟩

/-! ### C5 -/

theorem zipWith_add_residual (l : List (ℚ × ℚ)) (F : ℚ × ℚ → ℚ) :
    List.zipWith (fun a b => a + b) (l.map F)
      (List.zipWith (fun a b => a - b) (l.map Prod.snd) (l.map F)) =
    l.map Prod.snd := by
  induction l with
  | nil => rfl
  | cons a t ih =>
    simp only [List.map_cons, List.zipWith_cons_cons, ih]
    congr 1
    ring

/-- C5: the reported `r_squared` of every successful FitResult equals
`1 - SS_res / SS_tot` recomputed from the returned curves — the original
log power is the model curve plus the residual, and `rsq` of the model
against it reproduces the stored value exactly (rational arithmetic, so
the floating tolerance is met with equality). -/
theorem fit_r_squared_recompute {o : Oracles} {cfg : FitConfig}
    {fmin fmax : ℚ} {s : List (ℚ × ℚ)} {res : FitResult}
    (h : fit o cfg fmin fmax s = .ok res) :
    rsq res.modelCurve
      (List.zipWith (fun a b => a + b) res.modelCurve res.residual) =
    res.r_squared := by
  obtain ⟨data, ap1, ap2, _, _, _, hres⟩ := fit_ok_elim h
  rw [hres]
  show rsq (data.map _)
      (List.zipWith (fun a b => a + b) (data.map _)
        (List.zipWith (fun a b => a - b) (data.map Prod.snd) (data.map _))) =
    rsq (data.map _) (data.map Prod.snd)
  rw [zipWith_add_residual]

/-- C5 witness: in the concrete run, recomputing `rsq` from the returned
model curve and residual reproduces the stored `r_squared`. -/
theorem fit_r_squared_recompute_witness :
    fit oW cfgW 0 10 sW = .ok resW ∧
    rsq resW.modelCurve
      (List.zipWith (fun a b => a + b) resW.modelCurve resW.residual) =
    resW.r_squared :=
  ⟨fit_oW_eval, fit_r_squared_recompute fit_oW_eval⟩

/-! ### C6 -/

/-- C6: `fit` returns either a typed failure or a complete FitResult,
never both and never a partial one — and when the aperiodic solver fails
to converge on every attempt while preprocessing succeeded, the whole fit
aborts with `AperiodicFitError` and no FitResult is produced. -/
theorem fit_atomic_result (o : Oracles) (cfg : FitConfig) (fmin fmax : ℚ)
    (s : List (ℚ × ℚ)) :
    ((∃ e, fit o cfg fmin fmax s = .error e) ∨
      (∃ r, fit o cfg fmin fmax s = .ok r)) ∧
    (∀ e r, ¬(fit o cfg fmin fmax s = .error e ∧
              fit o cfg fmin fmax s = .ok r)) ∧
    ((∀ m g d, o.apSolve m g d = none) →
      (∃ data, preprocess o cfg fmin fmax s = .ok data) →
      fit o cfg fmin fmax s = .error .aperiodicFit) := by
  refine ⟨?_, ?_, ?_⟩
  · cases hf : fit o cfg fmin fmax s with
    | error e => exact Or.inl ⟨e, rfl⟩
    | ok r => exact Or.inr ⟨r, rfl⟩
  · rintro e r ⟨h1, h2⟩
    rw [h1] at h2
    exact Except.noConfusion h2
  · rintro hnone ⟨data, hdata⟩
    have hap : ∀ d : List (ℚ × ℚ),
        fitAperiodic o cfg d = .error .aperiodicFit := by
      intro d
      simp only [fitAperiodic, hnone]
    unfold fit
    rw [hdata]
    simp only [hap data]

/-- C6 witness: with solvers that never converge on a spectrum that
passes preprocessing, the fit aborts with `AperiodicFitError`. -/
theorem fit_atomic_result_witness :
    fit oFail cfgW 0 10 sW = .error .aperiodicFit := by
  refine (fit_atomic_result oFail cfgW 0 10 sW).2.2 (fun m g d => rfl)
    ⟨[(1, 1), (2, 1), (3, 1), (4, 1)], ?_⟩
  norm_num [preprocess, trimSpectrum, oFail, cfgW, sW]

/-! ### C7 -/

/-- C7: `fit` is deterministic — two runs on identical inputs (spectrum,
range, configuration, and identical solver/transcendental oracles, which
carry the solver seeding) produce identical results. -/
theorem fit_deterministic (o o2 : Oracles) (cfg cfg2 : FitConfig)
    (fmin fmin2 fmax fmax2 : ℚ) (s s2 : List (ℚ × ℚ))
    (ho : o = o2) (hcfg : cfg = cfg2) (h1 : fmin = fmin2)
    (h2 : fmax = fmax2) (hs : s = s2) :
    fit o cfg fmin fmax s = fit o2 cfg2 fmin2 fmax2 s2 := by
  subst ho hcfg h1 h2 hs
  rfl

/-- C7 witness: two runs on the concrete input agree. -/
theorem fit_deterministic_witness :
    fit oW cfgW 0 10 sW = fit oW cfgW 0 10 sW :=
  fit_deterministic oW oW cfgW cfgW 0 0 10 10 sW sW rfl rfl rfl rfl rfl

/-! ### Plot template lemmas -/

theorem boolIndex_extract (l : List NVal) :
    (boolIndex l ((npIsnan l).map not)).filterMap id = l.filterMap id := by
  induction l with
  | nil => rfl
  | cons a t ih =>
    cases a with
    | none => simpa [boolIndex, npIsnan] using ih
    | some x => simpa [boolIndex, npIsnan] using ih

theorem list_range_map_sum (n : ℕ) (g : ℕ → ℕ) :
    ((List.range n).map g).sum = ∑ i ∈ Finset.range n, g i := by
  induction n with
  | zero => rfl
  | succ m ih =>
    rw [List.range_succ, List.map_append, List.sum_append,
      Finset.sum_range_succ, ih]
    simp

theorem countP_binned (f : ℚ → ℕ) (n : ℕ) (l : List ℚ) :
    (∀ v ∈ l, f v < n) →
    ((List.range n).map (fun i => l.countP (fun v => decide (f v = i)))).sum
      = l.length := by
  induction l with
  | nil =>
    intro _
    rw [list_range_map_sum]
    simp
  | cons a t ih =>
    intro h
    have ha : f a < n := h a (List.mem_cons_self a t)
    have ht := ih (fun v hv => h v (List.mem_cons_of_mem a hv))
    rw [list_range_map_sum] at ht ⊢
    simp only [List.countP_cons, List.length_cons]
    rw [Finset.sum_add_distrib, ht]
    have hone : (∑ i ∈ Finset.range n,
        if decide (f a = i) = true then 1 else 0) = 1 := by
      simp only [decide_eq_true_eq]
      rw [Finset.sum_ite_eq]
      simp [Finset.mem_range.2 ha]
    omega

theorem foldl_min_le_init (l : List ℚ) : ∀ a : ℚ, l.foldl min a ≤ a := by
  induction l with
  | nil => intro a; exact le_refl a
  | cons b t ih => intro a; exact le_trans (ih (min a b)) (min_le_left a b)

theorem foldl_min_le (l : List ℚ) : ∀ a x : ℚ, x ∈ l → l.foldl min a ≤ x := by
  induction l with
  | nil => intro a x hx; exact absurd hx (List.not_mem_nil x)
  | cons b t ih =>
    intro a x hx
    rcases List.mem_cons.1 hx with rfl | hx
    · exact le_trans (foldl_min_le_init t (min a x)) (min_le_right a x)
    · exact ih (min a b) x hx

theorem le_foldl_max_init (l : List ℚ) : ∀ a : ℚ, a ≤ l.foldl max a := by
  induction l with
  | nil => intro a; exact le_refl a
  | cons b t ih => intro a; exact le_trans (le_max_left a b) (ih (max a b))

theorem le_foldl_max (l : List ℚ) : ∀ a x : ℚ, x ∈ l → x ≤ l.foldl max a := by
  induction l with
  | nil => intro a x hx; exact absurd hx (List.not_mem_nil x)
  | cons b t ih =>
    intro a x hx
    rcases List.mem_cons.1 hx with rfl | hx
    · exact le_trans (le_max_right a x) (le_foldl_max_init t (max a x))
    · exact ih (max a b) x hx

theorem binIdx_lt (lo hi : ℚ) (n : ℕ) (hn : 0 < n) (v : ℚ) :
    binIdx lo hi n v < n := by
  unfold binIdx
  have := Nat.min_le_right (Int.toNat ⌊(v - lo) * (n : ℚ) / (hi - lo)⌋) (n - 1)
  omega

theorem histRange_default_mem (vals : List ℚ) :
    ∀ v ∈ vals,
      (adjustRange (histRange vals none)).1 ≤ v ∧
      v ≤ (adjustRange (histRange vals none)).2 := by
  cases vals with
  | nil => intro v hv; exact absurd hv (List.not_mem_nil v)
  | cons a t =>
    intro v hv
    have hlo : (histRange (a :: t) none).1 ≤ v := by
      rcases List.mem_cons.1 hv with rfl | hv2
      · exact foldl_min_le_init t v
      · exact foldl_min_le t a v hv2
    have hhi : v ≤ (histRange (a :: t) none).2 := by
      rcases List.mem_cons.1 hv with rfl | hv2
      · exact le_foldl_max_init t v
      · exact le_foldl_max t a v hv2
    unfold adjustRange
    split_ifs with heq
    · constructor <;> [linarith; linarith]
    · exact ⟨hlo, hhi⟩

theorem histCounts_sum_default (vals : List ℚ) (n : ℕ) (hn : 0 < n) :
    (histCounts vals n (adjustRange (histRange vals none)).1
      (adjustRange (histRange vals none)).2).sum = vals.length := by
  have hin := histRange_default_mem vals
  have hfilt : vals.filter
      (fun v => decide ((adjustRange (histRange vals none)).1 ≤ v) &&
        decide (v ≤ (adjustRange (histRange vals none)).2)) = vals := by
    refine List.filter_eq_self.2 (fun v hv => ?_)
    rw [Bool.and_eq_true, decide_eq_true_eq, decide_eq_true_eq]
    exact hin v hv
  unfold histCounts
  rw [hfilt]
  exact countP_binned _ n vals
    (fun v _ => binIdx_lt _ _ n hn v)

theorem zipSelf {α : Type} (l : List α) : l.zip l = l.map (fun a => (a, a)) := by
  induction l with
  | nil => rfl
  | cons a t ih => simp [ih]

theorem drop_two_range (n : ℕ) (h : 2 ≤ n) :
    (List.range n).drop 2 = (List.range (n - 2)).map (fun x => 2 + x) := by
  conv_lhs => rw [show n = 2 + (n - 2) by omega, List.range_add]
  exact List.drop_left (List.range 2)
    (List.map (fun x => 2 + x) (List.range (n - 2)))

theorem enum_map_offset (m : ℕ) :
    ((List.range m).map (fun x => 2 + x)).enum
      = (List.range m).map (fun k => (k, 2 + k)) := by
  rw [List.enum_map, List.enum_eq_zip_range, List.length_range, zipSelf,
    List.map_map]
  rfl

/-! ### C8 -/

/-- C8: the plot templates consume plain arrays plus presentation
options and hold no fit state — `plot_scatter_1` leaves its data array
unchanged, scatters it as the y data, and builds its x array freshly from
`x_val` and the jitter draw alone; `plot_hist` leaves its data array
unchanged and histograms a NaN-masked copy. -/
theorem plot_templates_consume_arrays (data jitter d2 : List NVal)
    (label : Option String) (title : Option String) (x_val : ℚ)
    (label2 : String) (title2 : Option String) (n_bins : ℕ)
    (x_lims : Option (ℚ × ℚ)) :
    (plot_scatter_1 data label title x_val jitter).dataAfter = data ∧
    (plot_scatter_1 data label title x_val jitter).ydata = data ∧
    (plot_scatter_1 data label title x_val jitter).xdata =
      List.zipWith (fun _ j => Option.map (fun jv => x_val + jv) j)
        data jitter ∧
    (plot_hist d2 label2 title2 n_bins x_lims).dataAfter = d2 ∧
    (plot_hist d2 label2 title2 n_bins x_lims).values = d2.filterMap id := by
  refine ⟨rfl, rfl, ?_, rfl, ?_⟩
  · simp only [plot_scatter_1, one_mul]
  · show (boolIndex d2 ((npIsnan d2).map not)).filterMap id = _
    exact boolIndex_extract d2

/-! ### C9 -/

/-- C9: `plot_hist` filters NaN entries out before histogramming, so no
NaN contributes to any bin, and (at the default unrestricted range) the
bin counts sum to the number of non-NaN entries of the input. -/
theorem plot_hist_filters_nan (data : List NVal) (label : String)
    (title : Option String) (n_bins : ℕ) (hn : 0 < n_bins) :
    (plot_hist data label title n_bins none).values = data.filterMap id ∧
    ((plot_hist data label title n_bins none).counts).sum =
      (data.filterMap id).length := by
  constructor
  · exact boolIndex_extract data
  · simp only [plot_hist]
    rw [boolIndex_extract data]
    exact histCounts_sum_default _ n_bins hn

/-- C9 witness: on `[1, NaN, 2]` with the default 25 bins, the histogram
input is `[1, 2]` and the counts sum to 2. -/
theorem plot_hist_filters_nan_witness :
    0 < 25 ∧
    (plot_hist [some 1, none, some 2] "bandwidth" none 25 none).values
      = [(1 : ℚ), 2] ∧
    ((plot_hist [some 1, none, some 2] "bandwidth" none 25 none).counts).sum
      = 2 := by
  have h := plot_hist_filters_nan [some 1, none, some 2] "bandwidth" none 25
    (by norm_num)
  refine ⟨by norm_num, ?_, ?_⟩
  · rw [h.1]; rfl
  · rw [h.2]; rfl

/-! ### C10 -/

/-- C10: for a non-empty series list, `plot_params_over_time` creates one
y-axis per series (the base axis then `len(params) - 1` twinned ones),
draws the i-th series on the i-th axis, and when there are three or more
series places the right spine of the third-and-later axes at
`1.1 + 0.1 * nax`, i.e. outward by 0.1 per extra axis. -/
theorem plot_params_over_time_axes (params : List (List ℚ))
    (h : params ≠ []) :
    (plot_params_over_time params).axisIsBase
      = true :: List.replicate (params.length - 1) false ∧
    (plot_params_over_time params).draws
      = (List.range params.length).zip params ∧
    (3 ≤ params.length →
      (plot_params_over_time params).spinePositions
        = (List.range (params.length - 2)).map
            (fun (k : ℕ) => ((2 + k : ℕ), (11 / 10 + (k : ℚ) / 10 : ℚ)))) := by
  obtain ⟨a, t, rfl⟩ : ∃ a t, params = a :: t := by
    cases params with
    | nil => exact absurd rfl h
    | cons a t => exact ⟨a, t, rfl⟩
  have hn1 : 1 + ((a :: t).length - 1) = (a :: t).length := by
    simp only [List.length_cons]
    omega
  refine ⟨?_, ?_, ?_⟩
  · simp only [plot_params_over_time, hn1]
    rw [show (a :: t).length = t.length + 1 from rfl,
      List.range_succ_eq_map]
    simp [List.map_map, Function.comp, List.eq_replicate_iff, Nat.succ_ne_zero]
  · simp only [plot_params_over_time, hn1]
  · intro h3
    simp only [plot_params_over_time, if_pos h3]
    rw [drop_two_range _ (by omega), enum_map_offset, List.map_map]
    rfl

/-- C10 witness: with three one-point series, the base axis is followed
by two twinned axes, each series is drawn on its own axis, and the third
axis's right spine sits at 1.1. -/
theorem plot_params_over_time_axes_witness :
    ([[(1 : ℚ)], [2], [3]] : List (List ℚ)) ≠ [] ∧
    ((plot_params_over_time [[(1 : ℚ)], [2], [3]]).axisIsBase
        = true :: List.replicate ([[(1 : ℚ)], [2], [3]].length - 1) false ∧
      (plot_params_over_time [[(1 : ℚ)], [2], [3]]).draws
        = (List.range [[(1 : ℚ)], [2], [3]].length).zip
            [[(1 : ℚ)], [2], [3]] ∧
      (3 ≤ [[(1 : ℚ)], [2], [3]].length →
        (plot_params_over_time [[(1 : ℚ)], [2], [3]]).spinePositions
          = (List.range ([[(1 : ℚ)], [2], [3]].length - 2)).map
              (fun (k : ℕ) => ((2 + k : ℕ), (11 / 10 + (k : ℚ) / 10 : ℚ))))) :=
  ⟨by simp, plot_params_over_time_axes [[(1 : ℚ)], [2], [3]] (by simp)⟩

end Fooof
